import Mathlib

/-!
Verification of the ConvoIQ agent orchestration core against its source.

The development shallowly embeds:
* the JSON parse/serialize primitives the handlers rely on (`jsonParse`,
  `Json.stringify`), modelling the JavaScript built-ins `JSON.parse` /
  `JSON.stringify`;
* the Capability Gate (`getAgentTools` in `agent-tools.js`);
* the Tool Executor (`AgentToolHandler` and its methods);
* the Agent Loop Driver (`RunAgent.post` in the backend resources file),
  as a pure function from the model-collaborator's streamed turns to the
  ordered list of emitted wire events plus the final draft;
* the Client Stream Consumer (`runAgentPrompt` in `Agent.tsx`), as a fold
  of wire events into a conversation round.

Machine strings are Lean `String`s (the sources only ever concatenate and
slice; all concrete inputs are ASCII, where JS UTF-16 lengths coincide with
Lean character counts).
-/

namespace ConvoIQ

/-! ## JSON values

`Json` models the JavaScript JSON value universe as far as the agent core
manipulates it.  Numbers are kept exactly as `mantissa * 10 ^ exponent`,
which is faithful for every number the core produces (they are all
integers with `exponent = 0`). -/

inductive Json where
  | null
  | bool (b : Bool)
  | num (mantissa : Int) (exponent : Int)
  | str (s : String)
  | arr (elems : List Json)
  | obj (fields : List (String × Json))

/-! ## `JSON.parse`

A fuel-indexed recursive-descent parser for the JSON grammar
(ECMA-404, the grammar `JSON.parse` accepts): optional whitespace,
`null`/`true`/`false`, numbers without leading zeros, strings with the
seven short escapes and `\uXXXX`, arrays and objects.  The fuel is the
input length plus one, which is enough because every nesting level
consumes at least one character.  Error messages stand in for the host
engine's `SyntaxError` messages. -/

def jsonWs (c : Char) : Bool :=
  c = ' ' ∨ c = '\t' ∨ c = '\n' ∨ c = '\r'

def skipWs : List Char → List Char
  | c :: cs => if jsonWs c then skipWs cs else c :: cs
  | [] => []

def takeDigits : List Char → (List Char × List Char)
  | c :: cs =>
    if c.isDigit then
      let (ds, rest) := takeDigits cs
      (c :: ds, rest)
    else ([], c :: cs)
  | [] => ([], [])

def digitsToNat (ds : List Char) : Nat :=
  ds.foldl (fun a c => 10 * a + (c.toNat - 48)) 0

def hexVal (c : Char) : Option Nat :=
  if c.isDigit then some (c.toNat - 48)
  else if 'a' ≤ c ∧ c ≤ 'f' then some (c.toNat - 97 + 10)
  else if 'A' ≤ c ∧ c ≤ 'F' then some (c.toNat - 65 + 10)
  else none

/-- String body parser: consumes characters after the opening quote up to
the closing quote, decoding escapes as `JSON.parse` does. -/
def parseStringBody : List Char → List Char → Except String (String × List Char)
  | [], _ => .error "Unterminated string in JSON"
  | '"' :: rest, acc => .ok (String.mk acc.reverse, rest)
  | '\\' :: rest, acc =>
    match rest with
    | '"' :: r => parseStringBody r ('"' :: acc)
    | '\\' :: r => parseStringBody r ('\\' :: acc)
    | '/' :: r => parseStringBody r ('/' :: acc)
    | 'b' :: r => parseStringBody r ('\x08' :: acc)
    | 'f' :: r => parseStringBody r ('\x0c' :: acc)
    | 'n' :: r => parseStringBody r ('\n' :: acc)
    | 'r' :: r => parseStringBody r ('\r' :: acc)
    | 't' :: r => parseStringBody r ('\t' :: acc)
    | 'u' :: a :: b :: c :: d :: r =>
      match hexVal a, hexVal b, hexVal c, hexVal d with
      | some ha, some hb, some hc, some hd =>
        let n := ((ha * 16 + hb) * 16 + hc) * 16 + hd
        parseStringBody r (Char.ofNat n :: acc)
      | _, _, _, _ => .error "Bad Unicode escape in JSON"
    | _ => .error "Bad escaped character in JSON"
  | c :: rest, acc =>
    if c.toNat < 32 then .error "Bad control character in string literal in JSON"
    else parseStringBody rest (c :: acc)

/-- Number parser, returning the value as `mantissa * 10 ^ exponent`. -/
def parseNumber (cs : List Char) : Except String (Json × List Char) :=
  let (neg, cs1) :=
    match cs with
    | '-' :: rest => (true, rest)
    | _ => (false, cs)
  match cs1 with
  | [] => .error "Unexpected end of JSON input"
  | c :: _ =>
    if c.isDigit then
      let (ints, cs2) := takeDigits cs1
      if 1 < ints.length ∧ ints.headD '0' = '0' then
        .error "Unexpected number in JSON"
      else
        let (fracs, cs3) :=
          match cs2 with
          | '.' :: cs2' =>
            let (ds, rest) := takeDigits cs2'
            (some ds, rest)
          | _ => (none, cs2)
        match fracs with
        | some [] => .error "Unterminated fractional number in JSON"
        | _ =>
          let fracDigits := fracs.getD []
          let expPart :
              Except String (Int × List Char) :=
            match cs3 with
            | c3 :: cs3' =>
              if c3 = 'e' ∨ c3 = 'E' then
                let (esign, cs4) :=
                  match cs3' with
                  | '+' :: r => ((1 : Int), r)
                  | '-' :: r => ((-1 : Int), r)
                  | _ => ((1 : Int), cs3')
                let (eds, cs5) := takeDigits cs4
                if eds.isEmpty then .error "Exponent part is missing a number in JSON"
                else .ok (esign * (digitsToNat eds : Int), cs5)
              else .ok (0, cs3)
            | [] => .ok (0, cs3)
          match expPart with
          | .error e => .error e
          | .ok (expVal, csRest) =>
            let mag : Nat := digitsToNat (ints ++ fracDigits)
            let m : Int := if neg then -(mag : Int) else (mag : Int)
            .ok (Json.num m (expVal - fracDigits.length), csRest)
    else .error "Unexpected token in JSON"

mutual

/-- Parse one JSON value (after skipping leading whitespace). -/
def parseValue : Nat → List Char → Except String (Json × List Char)
  | 0, _ => .error "JSON nesting too deep"
  | fuel + 1, cs =>
    match skipWs cs with
    | [] => .error "Unexpected end of JSON input"
    | 'n' :: 'u' :: 'l' :: 'l' :: rest => .ok (Json.null, rest)
    | 't' :: 'r' :: 'u' :: 'e' :: rest => .ok (Json.bool true, rest)
    | 'f' :: 'a' :: 'l' :: 's' :: 'e' :: rest => .ok (Json.bool false, rest)
    | '"' :: rest =>
      match parseStringBody rest [] with
      | .error e => .error e
      | .ok (s, rest') => .ok (Json.str s, rest')
    | '[' :: rest =>
      (match skipWs rest with
      | ']' :: rest' => .ok (Json.arr [], rest')
      | _ =>
        match parseElems fuel (skipWs rest) with
        | .error e => .error e
        | .ok (es, rest') => .ok (Json.arr es, rest'))
    | '\x7b' :: rest =>
      (match skipWs rest with
      | '\x7d' :: rest' => .ok (Json.obj [], rest')
      | _ =>
        match parseMembers fuel (skipWs rest) with
        | .error e => .error e
        | .ok (fs, rest') => .ok (Json.obj fs, rest'))
    | cs' => parseNumber cs'

/-- Parse the comma-separated element list of a non-empty array, including
the closing bracket. -/
def parseElems : Nat → List Char → Except String (List Json × List Char)
  | 0, _ => .error "JSON nesting too deep"
  | fuel + 1, cs =>
    match parseValue fuel cs with
    | .error e => .error e
    | .ok (v, rest) =>
      match skipWs rest with
      | ',' :: rest' =>
        match parseElems fuel rest' with
        | .error e => .error e
        | .ok (vs, rest'') => .ok (v :: vs, rest'')
      | ']' :: rest' => .ok ([v], rest')
      | _ => .error "Expected comma or closing bracket in JSON array"

/-- Parse the member list of a non-empty object, including the closing
brace. -/
def parseMembers : Nat → List Char → Except String (List (String × Json) × List Char)
  | 0, _ => .error "JSON nesting too deep"
  | fuel + 1, cs =>
    match skipWs cs with
    | '"' :: rest =>
      (match parseStringBody rest [] with
      | .error e => .error e
      | .ok (k, rest') =>
        match skipWs rest' with
        | ':' :: rest'' =>
          (match parseValue fuel rest'' with
          | .error e => .error e
          | .ok (v, rest3) =>
            match skipWs rest3 with
            | ',' :: rest4 =>
              (match parseMembers fuel rest4 with
              | .error e => .error e
              | .ok (fs, rest5) => .ok ((k, v) :: fs, rest5))
            | '\x7d' :: rest4 => .ok ([(k, v)], rest4)
            | _ => .error "Expected comma or closing brace in JSON object")
        | _ => .error "Expected colon in JSON object")
    | _ => .error "Expected property name in JSON object"

end

/-- Model of `JSON.parse`: parse a complete JSON document, requiring the
whole input to be consumed. -/
def jsonParse (s : String) : Except String Json :=
  match parseValue (s.length + 1) s.data with
  | .error e => .error e
  | .ok (v, rest) =>
    match skipWs rest with
    | [] => .ok v
    | _ => .error "Unexpected non-whitespace character after JSON"

/-! ## `JSON.stringify` -/

def hexDigitChar (n : Nat) : Char :=
  if n < 10 then Char.ofNat (48 + n) else Char.ofNat (97 + n - 10)

def escapeChar (c : Char) : String :=
  if c = '"' then "\\\""
  else if c = '\\' then "\\\\"
  else if c = '\n' then "\\n"
  else if c = '\r' then "\\r"
  else if c = '\t' then "\\t"
  else if c = '\x08' then "\\b"
  else if c = '\x0c' then "\\f"
  else if c.toNat < 32 then
    "\\u00" ++ String.mk [hexDigitChar (c.toNat / 16), hexDigitChar (c.toNat % 16)]
  else String.singleton c

def escapeString (s : String) : String :=
  "\"" ++ String.join (s.data.map escapeChar) ++ "\""

/-- Serialization of a JSON number; exact for integer values
(`exponent = 0`), which covers every number the core serializes. -/
def numRepr (m e : Int) : String :=
  if e = 0 then toString m else toString m ++ "e" ++ toString e

mutual

/-- Model of compact `JSON.stringify` (no indent argument). -/
def Json.stringify : Json → String
  | .null => "null"
  | .bool true => "true"
  | .bool false => "false"
  | .num m e => numRepr m e
  | .str s => escapeString s
  | .arr es => "[" ++ stringifyElems es ++ "]"
  | .obj fs => "\x7b" ++ stringifyFields fs ++ "\x7d"

def stringifyElems : List Json → String
  | [] => ""
  | [v] => Json.stringify v
  | v :: vs => Json.stringify v ++ "," ++ stringifyElems vs

def stringifyFields : List (String × Json) → String
  | [] => ""
  | [(k, v)] => escapeString k ++ ":" ++ Json.stringify v
  | (k, v) :: fs => escapeString k ++ ":" ++ Json.stringify v ++ "," ++ stringifyFields fs

end

def indentOf (depth : Nat) : String :=
  String.mk (List.replicate (2 * depth) ' ')

mutual

/-- Model of `JSON.stringify(v, null, 2)` (two-space pretty printing). -/
def Json.stringify2 : Nat → Json → String
  | _, .null => "null"
  | _, .bool true => "true"
  | _, .bool false => "false"
  | _, .num m e => numRepr m e
  | _, .str s => escapeString s
  | _, .arr [] => "[]"
  | depth, .arr es =>
    "[\n" ++ stringify2Elems (depth + 1) es ++ "\n" ++ indentOf depth ++ "]"
  | _, .obj [] => "\x7b\x7d"
  | depth, .obj fs =>
    "\x7b\n" ++ stringify2Fields (depth + 1) fs ++ "\n" ++ indentOf depth ++ "\x7d"

def stringify2Elems : Nat → List Json → String
  | _, [] => ""
  | depth, [v] => indentOf depth ++ Json.stringify2 depth v
  | depth, v :: vs =>
    indentOf depth ++ Json.stringify2 depth v ++ ",\n" ++ stringify2Elems depth vs

def stringify2Fields : Nat → List (String × Json) → String
  | _, [] => ""
  | depth, [(k, v)] => indentOf depth ++ escapeString k ++ ": " ++ Json.stringify2 depth v
  | depth, (k, v) :: fs =>
    indentOf depth ++ escapeString k ++ ": " ++ Json.stringify2 depth v ++ ",\n" ++
      stringify2Fields depth fs

end

/-- Field lookup on a JSON object (JavaScript property access on a parsed
object; `none` models `undefined`). -/
def Json.getField : Json → String → Option Json
  | .obj fs, k => (fs.find? (fun f => f.1 = k)).map (fun f => f.2)
  | _, _ => none

def Json.asString : Json → Option String
  | .str s => some s
  | _ => none

/-- Extract a string-typed argument field (`args.foo` where the TypeScript
signature types it `string`). -/
def argStr (args : Json) (k : String) : Option String :=
  (args.getField k).bind Json.asString

/-- Extract a non-negative integral number field (used for `max_chars`). -/
def argNat (args : Json) (k : String) : Option Nat :=
  match args.getField k with
  | some (Json.num m 0) => if 0 ≤ m then some m.toNat else none
  | _ => none

/-! ## Capability Gate (`getAgentTools`, agent-tools.js lines 52-176)

`ToolDef` keeps each tool definition's name, description, parameter
property names and required list; the nested per-parameter JSON-schema
text is elided (the gate never inspects it and no claim mentions it). -/

structure EditModes where
  editPrompt : Bool
  editData : Bool
  editUICode : Bool
deriving DecidableEq

structure ToolDef where
  name : String
  description : String
  params : List String
  required : List String
deriving DecidableEq

def readCurrentComponentTool : ToolDef :=
  { name := "read_current_component"
    description := "Read the current state of the component being edited. Returns the prompt, structured output schema, and UI code."
    params := []
    required := [] }

def getConversationTranscriptTool : ToolDef :=
  { name := "get_conversation_transcript"
    description := "Fetch the readable transcript for the selected conversation. Returns transcript with rich metadata (duration, word count, speakers, character count, percentage fetched). Start with a small sample (5000 chars), then request more if needed based on the metadata."
    params := ["max_chars"]
    required := [] }

def testComponentTool : ToolDef :=
  { name := "test_component"
    description := "Test the current prompt + structured output on the selected conversation transcript. Returns the LLM response or any errors."
    params := ["test_type"]
    required := ["test_type"] }

def editPromptTool : ToolDef :=
  { name := "edit_prompt"
    description := "Edit the component prompt."
    params := ["new_prompt", "reasoning"]
    required := ["new_prompt", "reasoning"] }

def editStructuredOutputTool : ToolDef :=
  { name := "edit_structured_output"
    description := "Edit the structured output JSON schema."
    params := ["new_schema", "reasoning"]
    required := ["new_schema", "reasoning"] }

def editUICodeTool : ToolDef :=
  { name := "edit_ui_code"
    description := "Edit the React UI component code."
    params := ["new_code", "reasoning"]
    required := ["new_code", "reasoning"] }

/-- The Capability Gate: the always-available read-only tools followed by
one edit tool per enabled flag, in the source's push order. -/
def getAgentTools (editModes : EditModes) : List ToolDef :=
  let tools := [readCurrentComponentTool, getConversationTranscriptTool, testComponentTool]
  let tools := if editModes.editPrompt then tools ++ [editPromptTool] else tools
  let tools := if editModes.editData then tools ++ [editStructuredOutputTool] else tools
  let tools := if editModes.editUICode then tools ++ [editUICodeTool] else tools
  tools

/-! ## Tool Executor (`AgentToolHandler`, agent-tools.js lines 180-325)

The handler's mutable `component` field becomes explicit state passing:
each operation takes the current component and returns the (possibly
updated) component together with its JSON result.  The HTTP + S3
transcript fetch is an external collaborator and enters as an
`Except String TranscriptFetch` input. -/

structure Component where
  id : String
  component_title : String
  component_type : String
  prompt : String
  code : String
  structuredOutput : String
  uiCode : String
  status : String
  createdAt : String
deriving DecidableEq

def readCurrentComponent (c : Component) : Json :=
  Json.obj
    [("prompt", Json.str c.prompt),
     ("structuredOutput", Json.str c.structuredOutput),
     ("uiCode", Json.str c.uiCode),
     ("title", Json.str c.component_title)]

def editPrompt (c : Component) (newPrompt reasoning : String) : Component × Json :=
  ({ c with prompt := newPrompt },
   Json.obj
     [("success", Json.bool true),
      ("message", Json.str "Prompt updated in memory successfully. User can publish when ready."),
      ("reasoning", Json.str reasoning)])

def editStructuredOutput (c : Component) (newSchema reasoning : String) : Component × Json :=
  match jsonParse newSchema with
  | .error e =>
    (c,
     Json.obj
       [("success", Json.bool false),
        ("error", Json.str ("Invalid JSON schema: " ++ e))])
  | .ok _ =>
    ({ c with structuredOutput := newSchema },
     Json.obj
       [("success", Json.bool true),
        ("message", Json.str "Structured output updated in memory successfully. User can publish when ready."),
        ("reasoning", Json.str reasoning)])

def editUICode (c : Component) (newCode reasoning : String) : Component × Json :=
  ({ c with uiCode := newCode },
   Json.obj
     [("success", Json.bool true),
      ("message", Json.str "UI code updated in memory successfully. User can publish when ready."),
      ("reasoning", Json.str reasoning)])

def testComponent (testType : String) : Json :=
  Json.obj
    [("success", Json.bool true),
     ("testType", Json.str testType),
     ("message", Json.str ("Test \"" ++ testType ++ "\" would run here. Full implementation requires LLM integration.")),
     ("note", Json.str "This is a placeholder. Implement actual testing logic based on testType.")]

/-- The conversation record fields `getConversationTranscript` reads from
the database collaborator. -/
structure ConversationRecord where
  convo_title : String
  video_duration_seconds : Option Nat
  word_count : Option Nat
  num_speakers : Option Nat

/-- The external data `getConversationTranscript` fetches: the
conversation record plus the full readable transcript text from S3. -/
structure TranscriptFetch where
  record : ConversationRecord
  fullTranscript : String

def truncationNotice : String :=
  "\n\n[... transcript truncated. Call again with higher max_chars to see more ...]"

/-- `maxChars || 5000`: JavaScript `||` treats `0` and `undefined` alike. -/
def effLimit : Option Nat → Nat
  | some n => if n = 0 then 5000 else n
  | none => 5000

/-- `s.slice(0, n)` on a JavaScript string. -/
def jsSlice (s : String) (n : Nat) : String :=
  String.mk (s.data.take n)

/-! ### IEEE-754 binary64 arithmetic

The percentage and duration fields are computed by JavaScript in IEEE
binary64 doubles, whose rounding differs from exact rational rounding at
ties (e.g. `(29/200)*100` evaluates to the double just below `14.5`, so
`Math.round` gives `14`, not `15`).  `F64` carries the exact value
`m * 2 ^ exp` of a non-negative double; `fl64Div` and `fl64Times100`
perform correctly rounded (round-to-nearest, ties-to-even) division and
multiplication by 100, including gradual underflow at `2 ^ (-1074)`. -/

/-- The exact value `m * 2 ^ exp` of a non-negative binary64 double. -/
structure F64 where
  m : Nat
  exp : Int

/-- Round `p / q` to the nearest integer, ties to even (`q > 0`). -/
def rne (p q : Nat) : Nat :=
  let n := p / q
  let r := p % q
  if 2 * r < q then n
  else if q < 2 * r then n + 1
  else if n % 2 = 0 then n else n + 1

/-- Fuel-indexed `⌊log2⌋` (the fuel bounds the bit length). -/
def log2Aux : Nat → Nat → Nat
  | 0, _ => 0
  | fuel + 1, n => if 2 ≤ n then log2Aux fuel (n / 2) + 1 else 0

/-- `⌊log2 n⌋` for `n ≥ 1` (and `0` at `0`). -/
def natLog2 (n : Nat) : Nat :=
  log2Aux n n

/-- Is `2 ^ k ≤ a / b` (for `a, b ≥ 1`)? -/
def ratLePow2 (a b : Nat) (k : Int) : Bool :=
  if 0 ≤ k then b * 2 ^ k.toNat ≤ a else b ≤ a * 2 ^ (-k).toNat

/-- `⌊log2 (a / b)⌋` for `a, b ≥ 1`. -/
def ratFloorLog2 (a b : Nat) : Int :=
  let k : Int := (natLog2 a : Int) - (natLog2 b : Int)
  if ratLePow2 a b k then k else k - 1

/-- The binary64 double nearest to `a / b` (`a ≥ 0`, `b ≥ 1`; the
quotients the executor produces are far below the overflow range). -/
def fl64Div (a b : Nat) : F64 :=
  if a = 0 then { m := 0, exp := 0 }
  else
    let e := ratFloorLog2 a b
    let p : Int := max (e - 52) (-1074)
    let nd : Nat × Nat :=
      if 0 ≤ p then (a, b * 2 ^ p.toNat) else (a * 2 ^ (-p).toNat, b)
    { m := rne nd.1 nd.2, exp := p }

/-- The binary64 double nearest to `x * 100` (for non-negative `x`). -/
def fl64Times100 (x : F64) : F64 :=
  let m := x.m * 100
  if m = 0 then { m := 0, exp := 0 }
  else
    let e : Int := (natLog2 m : Int) + x.exp
    let p : Int := max (e - 52) (-1074)
    let s : Int := p - x.exp
    if 0 < s then { m := rne m (2 ^ s.toNat), exp := p }
    else { m := m, exp := x.exp }

/-- `Math.round` on a non-negative double: the integer nearest to the
double's exact value, ties toward `+∞`. -/
def mathRound (x : F64) : Nat :=
  if 0 ≤ x.exp then x.m * 2 ^ x.exp.toNat
  else
    let q := 2 ^ (-x.exp).toNat
    (2 * x.m + q) / (2 * q)

/-- `Math.round((returned / total) * 100)` for `total > 0`, evaluated in
binary64 exactly as the engine does: correctly rounded division, then
correctly rounded multiplication by 100, then `Math.round` on the exact
value of the resulting double. -/
def jsRoundPct (returned total : Nat) : Nat :=
  if total = 0 then 0
  else mathRound (fl64Times100 (fl64Div returned total))

/-- `(seconds / 60).toFixed(1)`: binary64 division, then `toFixed`
picks the integer `n` minimizing `|n / 10 - x|` over the exact value of
the double `x`, larger `n` on ties (ECMA-262), then formats one decimal. -/
def toFixed1Minutes (seconds : Nat) : String :=
  let d := fl64Div seconds 60
  let tenths := mathRound { m := d.m * 10, exp := d.exp }
  toString (tenths / 10) ++ "." ++ toString (tenths % 10)

/-- `x || 'unknown'` on an optional numeric field (`0` is falsy). -/
def numOrUnknown : Option Nat → Json
  | some n => if n = 0 then Json.str "unknown" else Json.num n 0
  | none => Json.str "unknown"

/-- The success payload of `getConversationTranscript` (source lines
281-310), computed from the fetched data and the requested `max_chars`. -/
structure TranscriptResult where
  conversationTitle : String
  transcript : String
  totalCharacters : Nat
  returnedCharacters : Nat
  percentageFetched : String
  truncated : Bool
  durationMinutes : String
  wordCount : Json
  speakers : Json

def transcriptResult (data : TranscriptFetch) (maxChars : Option Nat) : TranscriptResult :=
  let limit := effLimit maxChars
  let fullLength := data.fullTranscript.length
  let isTruncated : Bool := decide (fullLength > limit)
  let returnedChars := if isTruncated then limit else fullLength
  let percentage :=
    if fullLength = 0 then "NaN%"
    else toString (jsRoundPct returnedChars fullLength) ++ "%"
  let durationMinutes :=
    match data.record.video_duration_seconds with
    | some s => if s = 0 then "unknown" else toFixed1Minutes s
    | none => "unknown"
  let transcript :=
    if isTruncated then jsSlice data.fullTranscript limit ++ truncationNotice
    else data.fullTranscript
  { conversationTitle := data.record.convo_title
    transcript := transcript
    totalCharacters := fullLength
    returnedCharacters := returnedChars
    percentageFetched := percentage
    truncated := isTruncated
    durationMinutes := durationMinutes
    wordCount := numOrUnknown data.record.word_count
    speakers := numOrUnknown data.record.num_speakers }

def TranscriptResult.toJson (r : TranscriptResult) : Json :=
  Json.obj
    [("success", Json.bool true),
     ("conversationTitle", Json.str r.conversationTitle),
     ("transcript", Json.str r.transcript),
     ("metadata",
      Json.obj
        [("totalCharacters", Json.num r.totalCharacters 0),
         ("returnedCharacters", Json.num r.returnedCharacters 0),
         ("percentageFetched", Json.str r.percentageFetched),
         ("truncated", Json.bool r.truncated),
         ("durationMinutes", Json.str r.durationMinutes),
         ("wordCount", r.wordCount),
         ("speakers", r.speakers)]),
     ("totalCharacters", Json.num r.totalCharacters 0),
     ("returnedCharacters", Json.num r.returnedCharacters 0),
     ("truncated", Json.bool r.truncated)]

/-- `getConversationTranscript(maxChars)`: the whole operation including
its internal try/catch — a fetch failure becomes a `success:false`
result, never a thrown error. -/
def getConversationTranscript (fetched : Except String TranscriptFetch)
    (maxChars : Option Nat) : Json :=
  match fetched with
  | .error e =>
    Json.obj
      [("success", Json.bool false),
       ("error", Json.str ("Failed to fetch transcript: " ++ e))]
  | .ok d => (transcriptResult d maxChars).toJson

/-- `AgentToolHandler.executeTool`: dispatch one named tool call.  The
`.error` case models the `throw` for an unknown tool name.  Missing
string arguments are modelled by the observable JavaScript coercions:
`JSON.parse(undefined)` and template interpolation read `undefined` as
the text "undefined", while a field stored as `undefined` reads back as
the empty string through the later `|| ''` guards. -/
def executeTool (fetched : Except String TranscriptFetch) (c : Component)
    (toolName : String) (args : Json) : Except String (Json × Component) :=
  if toolName = "read_current_component" then
    .ok (readCurrentComponent c, c)
  else if toolName = "edit_prompt" then
    let (c', r) := editPrompt c ((argStr args "new_prompt").getD "")
      ((argStr args "reasoning").getD "")
    .ok (r, c')
  else if toolName = "edit_structured_output" then
    let (c', r) := editStructuredOutput c ((argStr args "new_schema").getD "undefined")
      ((argStr args "reasoning").getD "")
    .ok (r, c')
  else if toolName = "edit_ui_code" then
    let (c', r) := editUICode c ((argStr args "new_code").getD "")
      ((argStr args "reasoning").getD "")
    .ok (r, c')
  else if toolName = "test_component" then
    .ok (testComponent ((argStr args "test_type").getD "undefined"), c)
  else if toolName = "get_conversation_transcript" then
    .ok (getConversationTranscript fetched (argNat args "max_chars"), c)
  else .error ("Unknown tool: " ++ toolName)

/-! ## Agent Loop Driver (`RunAgent.post`, backend resources lines 936-1196)

The driver is embedded as a pure function of its external inputs: the
model collaborator's streamed turns (one chunk list per LLM call, indexed
by the 1-based iteration number), the transcript-fetch outcome, and the
initial component.  Its output is the ordered list of SSE events the
`send` closure emits plus the final draft state. -/

structure PendingToolCall where
  id : String
  name : String
  argumentsText : String
deriving DecidableEq

/-- One indexed tool-call delta fragment inside a streamed chunk
(`delta.toolCalls[k]`); `none` models an absent (`undefined`) field. -/
structure ToolCallDelta where
  index : Nat
  id : Option String
  name : Option String
  argumentsText : Option String
deriving DecidableEq

/-- One streamed chunk's delta: optional text content and the (possibly
empty) list of tool-call fragments. -/
structure StreamChunk where
  content : Option String
  toolCalls : List ToolCallDelta

/-- The `accumulatedToolCalls` array: a sparse map from position index to
accumulator plus the JavaScript array length. -/
structure ToolCallAcc where
  find : Nat → Option PendingToolCall
  len : Nat

def ToolCallAcc.empty : ToolCallAcc :=
  { find := fun _ => none, len := 0 }

def ToolCallAcc.set (a : ToolCallAcc) (i : Nat) (p : PendingToolCall) : ToolCallAcc :=
  { find := fun j => if j = i then some p else a.find j
    len := max a.len (i + 1) }

/-- JavaScript truthiness of an optional string (`undefined` and `''` are
falsy). -/
def strTruthy : Option String → Bool
  | some s => s ≠ ""
  | none => false

/-- The freshly initialized accumulator entry for a fragment
(`{ id: deltaToolCall.id || '', function: { name: '', arguments: '' } }`). -/
def initPending (d : ToolCallDelta) : PendingToolCall :=
  { id := d.id.getD "", name := "", argumentsText := "" }

/-- Fold a fragment into one accumulator entry: overwrite `id` and
concatenate `name` and `arguments` when the fragment carries them (the
three source `if`s touch disjoint fields, so they are rendered as one
record). -/
def deltaUpdate (cur : PendingToolCall) (d : ToolCallDelta) : PendingToolCall :=
  { id := if strTruthy d.id then d.id.getD "" else cur.id
    name := if strTruthy d.name then cur.name ++ d.name.getD "" else cur.name
    argumentsText :=
      if strTruthy d.argumentsText then cur.argumentsText ++ d.argumentsText.getD ""
      else cur.argumentsText }

/-- Fold one tool-call delta fragment into the accumulator (source lines
1037-1060): initialize the entry at the fragment's index if absent, then
accumulate the fragment's pieces into it. -/
def applyToolCallDelta (acc : ToolCallAcc) (d : ToolCallDelta) : ToolCallAcc :=
  acc.set d.index (deltaUpdate ((acc.find d.index).getD (initPending d)) d)

/-- The accumulation at one fixed index, viewed in isolation. -/
def applyDeltaAt (o : Option PendingToolCall) (d : ToolCallDelta) : Option PendingToolCall :=
  some (deltaUpdate (o.getD (initPending d)) d)

/-- `accumulatedToolCalls.filter(tc => tc !== undefined)`: the defined
entries in index order. -/
def ToolCallAcc.compact (a : ToolCallAcc) : List PendingToolCall :=
  (List.range a.len).filterMap a.find

structure DraftState where
  prompt : String
  structuredOutput : String
  uiCode : String
deriving DecidableEq

/-- The `args` payload of a `tool_call` event: the raw argument text on a
parse failure, the parsed object on success. -/
inductive ToolCallArgs where
  | raw (text : String)
  | parsed (json : Json)

/-- The typed SSE events of the wire protocol. -/
inductive Event where
  | message_start (messageId : String)
  | message_chunk (messageId : String) (delta : String)
  | message_complete (messageId : String) (content : String)
  | tool_call (id : String) (toolName : String) (args : ToolCallArgs)
  | tool_result (id : String) (toolName : String) (result : Json) (success : Bool)
  | agent_complete (success : Bool) (updatedState : DraftState)
  | error (message : String)

/-- A terminal wire event (`agent_complete` or `error`). -/
def Event.isTerminal : Event → Bool
  | .agent_complete _ _ => true
  | .error _ => true
  | _ => false

def Event.isAgentComplete : Event → Bool
  | .agent_complete _ _ => true
  | _ => false

/-- One entry of the rolling `messages` history. -/
inductive HistMsg where
  | system (content : String)
  | user (content : String)
  | assistant (content : String) (toolCalls : List PendingToolCall)
  | tool (toolCallId : String) (content : String)
deriving DecidableEq

structure LoopState where
  component : Component
  messages : List HistMsg
  msgCounter : Nat

/-- Consume one streamed chunk (source lines 1025-1062): a truthy text
delta is appended to the accumulated content and forwarded as a
`message_chunk` event; tool-call fragments are folded into the
accumulator. -/
def processChunk (msgId : String) (st : String × ToolCallAcc × List Event)
    (ch : StreamChunk) : String × ToolCallAcc × List Event :=
  match ch.content with
  | some s =>
    if s = "" then (st.1, ch.toolCalls.foldl applyToolCallDelta st.2.1, st.2.2)
    else
      (st.1 ++ s, ch.toolCalls.foldl applyToolCallDelta st.2.1,
        st.2.2 ++ [Event.message_chunk msgId s])
  | none => (st.1, ch.toolCalls.foldl applyToolCallDelta st.2.1, st.2.2)

def processStream (msgId : String) (chunks : List StreamChunk) :
    String × ToolCallAcc × List Event :=
  chunks.foldl (processChunk msgId) ("", ToolCallAcc.empty, [])

/-- `toolCall.function.arguments || '{}'`. -/
def padArgs (s : String) : String :=
  if s = "" then "\x7b\x7d" else s

/-- Execute one turn's accumulated tool calls in order (source lines
1083-1155).  An argument-parse failure or a tool-execution failure is
recorded as a failure result, forwarded as events, and the remaining
calls still run. -/
def processToolCalls (fetched : Except String TranscriptFetch) :
    LoopState → List PendingToolCall → List Event × LoopState
  | st, [] => ([], st)
  | st, tc :: rest =>
    match jsonParse (padArgs tc.argumentsText) with
    | .error parseErr =>
      let errorResult := Json.obj
        [("error", Json.str ("Failed to parse arguments: " ++ parseErr)),
         ("rawArguments", Json.str tc.argumentsText)]
      let st' : LoopState :=
        { st with
          messages := st.messages ++ [HistMsg.tool tc.id (Json.stringify errorResult)]
          msgCounter := st.msgCounter + 2 }
      let r := processToolCalls fetched st' rest
      (Event.tool_call ("tool-" ++ toString st.msgCounter) tc.name (.raw tc.argumentsText) ::
        Event.tool_result ("result-" ++ toString (st.msgCounter + 1)) tc.name errorResult false ::
        r.1, r.2)
    | .ok toolArgs =>
      match executeTool fetched st.component tc.name toolArgs with
      | .ok (result, c') =>
        let st' : LoopState :=
          { component := c'
            messages := st.messages ++ [HistMsg.tool tc.id (Json.stringify2 0 result)]
            msgCounter := st.msgCounter + 2 }
        let r := processToolCalls fetched st' rest
        (Event.tool_call ("tool-" ++ toString st.msgCounter) tc.name (.parsed toolArgs) ::
          Event.tool_result ("result-" ++ toString (st.msgCounter + 1)) tc.name result true ::
          r.1, r.2)
      | .error errMsg =>
        let errorResult := Json.obj [("error", Json.str errMsg)]
        let st' : LoopState :=
          { st with
            messages := st.messages ++ [HistMsg.tool tc.id (Json.stringify errorResult)]
            msgCounter := st.msgCounter + 2 }
        let r := processToolCalls fetched st' rest
        (Event.tool_call ("tool-" ++ toString st.msgCounter) tc.name (.parsed toolArgs) ::
          Event.tool_result ("result-" ++ toString (st.msgCounter + 1)) tc.name errorResult false ::
          r.1, r.2)

/-- One loop iteration (source lines 1009-1161): one streaming model
call, the assistant message appended to history, and — when tool calls
were accumulated — their sequential execution.  The boolean result is
whether the iteration requested tools (i.e. the loop continues). -/
def runIteration (fetched : Except String TranscriptFetch) (st : LoopState)
    (chunks : List StreamChunk) : List Event × LoopState × Bool :=
  let msgId := "msg-" ++ toString st.msgCounter
  let st := { st with msgCounter := st.msgCounter + 1 }
  let ps := processStream msgId chunks
  let content := ps.1
  let toolCalls := ps.2.1.compact
  let st := { st with messages := st.messages ++ [HistMsg.assistant content toolCalls] }
  let evs := Event.message_start msgId :: ps.2.2 ++ [Event.message_complete msgId content]
  if toolCalls.isEmpty then (evs, st, false)
  else
    let r := processToolCalls fetched st toolCalls
    (evs ++ r.1, r.2, true)

def maxIterations : Nat := 25

/-- The bounded `while (iteration < maxIterations)` loop, by recursion on
the remaining iteration budget; returns the emitted events, the final
value of `iteration`, and the final state. -/
def agentLoopGo (fetched : Except String TranscriptFetch)
    (turns : Nat → List StreamChunk) :
    Nat → Nat → LoopState → List Event × Nat × LoopState
  | 0, iter, st => ([], iter, st)
  | remaining + 1, iter, st =>
    let iter' := iter + 1
    let step := runIteration fetched st (turns iter')
    if step.2.2 then
      let tail := agentLoopGo fetched turns remaining iter' step.2.1
      (step.1 ++ tail.1, tail.2.1, tail.2.2)
    else (step.1, iter', step.2.1)

def maxIterationsMessage : String :=
  "Agent reached maximum iterations. Check the component for partial changes."

structure RunOutput where
  events : List Event
  updatedState : DraftState

/-- The component object `RunAgent.post` builds from the frontend's
current state (source lines 952-962). -/
def mkComponent (componentId componentTitle : String) (currentState : DraftState)
    (createdAt : String) : Component :=
  { id := componentId
    component_title := componentTitle
    component_type := "llm"
    prompt := currentState.prompt
    code := ""
    structuredOutput := currentState.structuredOutput
    uiCode := currentState.uiCode
    status := "draft"
    createdAt := createdAt }

/-- The non-fatal body of `RunAgent.post` (source lines 998-1179): run
the bounded loop, emit the max-iterations warning when
`iteration >= maxIterations`, then emit the final `agent_complete` event
carrying the updated draft. -/
def runAgent (fetched : Except String TranscriptFetch)
    (turns : Nat → List StreamChunk) (systemPrompt userPromptText : String)
    (comp : Component) : RunOutput :=
  let st0 : LoopState :=
    { component := comp
      messages := [HistMsg.system systemPrompt, HistMsg.user userPromptText]
      msgCounter := 0 }
  let out := agentLoopGo fetched turns maxIterations 0 st0
  let warn := if maxIterations ≤ out.2.1 then [Event.error maxIterationsMessage] else []
  let updated : DraftState :=
    { prompt := out.2.2.component.prompt
      structuredOutput := out.2.2.component.structuredOutput
      uiCode := out.2.2.component.uiCode }
  { events := out.1 ++ warn ++ [Event.agent_complete true updated]
    updatedState := updated }

/-! ## Client Stream Consumer (`runAgentPrompt`, Agent.tsx lines 240-409)

The event callback folds each wire event into the active conversation
round.  The React state update `setConversationRounds(prev => prev.map
(round => round.id === roundId ? ... : round))` becomes a guarded update
of one round; the closure-captured `currentMessageText` is the first
component of the fold state.  `Date.now()` enters as the `now` input. -/

inductive MsgMetadata where
  | toolCallMeta (toolName : String) (args : ToolCallArgs)
  | toolResultMeta (toolName : String) (result : Json)

structure AgentMessage where
  id : String
  type : String
  content : String
  timestamp : Nat
  metadata : Option MsgMetadata

structure ConversationRound where
  id : String
  userPrompt : String
  editModes : EditModes
  messages : List AgentMessage
  timestamp : Nat

/-- Fold one SSE event into `(currentMessageText, active round)`. -/
def applyClientEvent (roundId : String) (now : Nat)
    (st : String × ConversationRound) (e : Event) : String × ConversationRound :=
  let upd (f : ConversationRound → ConversationRound) : ConversationRound :=
    if st.2.id = roundId then f st.2 else st.2
  match e with
  | .message_start mid =>
    ("",
     upd fun round =>
       { round with
         messages := round.messages ++
           [{ id := mid, type := "assistant", content := "", timestamp := now,
              metadata := none }] })
  | .message_chunk mid delta =>
    let t := st.1 ++ delta
    (t,
     upd fun round =>
       { round with
         messages := round.messages.map fun m =>
           if m.id = mid then { m with content := t } else m })
  | .message_complete _ _ => st
  | .tool_call eid toolName args =>
    (st.1,
     upd fun round =>
       { round with
         messages := round.messages ++
           [{ id := eid, type := "tool_call", content := toolName, timestamp := now,
              metadata := some (.toolCallMeta toolName args) }] })
  | .tool_result eid toolName result _success =>
    (st.1,
     upd fun round =>
       { round with
         messages := round.messages ++
           [{ id := eid, type := "tool_result", content := Json.stringify2 0 result,
              timestamp := now,
              metadata := some (.toolResultMeta toolName result) }] })
  | .agent_complete _ _ => st
  | .error msg =>
    (st.1,
     upd fun round =>
       { round with
         messages := round.messages ++
           [{ id := "error-" ++ toString now, type := "error", content := msg,
              timestamp := now, metadata := none }] })

/-- Folding a sequence of `message_chunk` events for one `messageId`. -/
def foldChunks (roundId : String) (now : Nat) (mid : String)
    (st : String × ConversationRound) (deltas : List String) :
    String × ConversationRound :=
  deltas.foldl (fun s d => applyClientEvent roundId now s (Event.message_chunk mid d)) st

/-- Concatenation of a list of strings in order. -/
def concatAll : List String → String
  | [] => ""
  | s :: rest => s ++ concatAll rest

/-! ## Concrete inputs shared by witnesses and counterexamples -/

def demoComponent : Component :=
  mkComponent "comp-1" "Demo" { prompt := "p", structuredOutput := "\x7b\x7d", uiCode := "u" } "t0"

def demoFetch : Except String TranscriptFetch :=
  .ok { record := { convo_title := "Convo", video_duration_seconds := some 90,
                    word_count := some 10, num_speakers := some 2 },
        fullTranscript := "hello world transcript text" }

/-- A 100-character transcript fetch (the spec's worked example). -/
def tFetch100 : TranscriptFetch :=
  { record := { convo_title := "t", video_duration_seconds := some 60,
                word_count := some 20, num_speakers := some 2 },
    fullTranscript := String.mk (List.replicate 100 'a') }

/-! ## Claims -/

set_option maxRecDepth 4096 in
/-- C2: for every combination of the three edit-mode flags, the
Capability Gate's output is exactly the three read-only tools
(`read_current_component`, `get_conversation_transcript`,
`test_component`) followed by one edit tool per enabled flag, and an
edit tool is a member of the list exactly when its flag is enabled. -/
theorem capability_gate_exact (m : EditModes) :
    (getAgentTools m).map ToolDef.name =
        ["read_current_component", "get_conversation_transcript", "test_component"] ++
          (if m.editPrompt then ["edit_prompt"] else []) ++
          (if m.editData then ["edit_structured_output"] else []) ++
          (if m.editUICode then ["edit_ui_code"] else []) ∧
      (editPromptTool ∈ getAgentTools m ↔ m.editPrompt = true) ∧
      (editStructuredOutputTool ∈ getAgentTools m ↔ m.editData = true) ∧
      (editUICodeTool ∈ getAgentTools m ↔ m.editUICode = true) ∧
      readCurrentComponentTool ∈ getAgentTools m ∧
      getConversationTranscriptTool ∈ getAgentTools m ∧
      testComponentTool ∈ getAgentTools m := by
  obtain ⟨p, d, u⟩ := m
  cases p <;> cases d <;> cases u <;> decide

/-- C3: `edit_structured_output` fails (leaving the component untouched)
exactly when the new schema does not parse as JSON, and on success
overwrites exactly the schema field with the given string. -/
theorem edit_structured_output_spec (c : Component) (newSchema reasoning : String) :
    (∀ e, jsonParse newSchema = Except.error e →
        editStructuredOutput c newSchema reasoning =
          (c,
           Json.obj
             [("success", Json.bool false),
              ("error", Json.str ("Invalid JSON schema: " ++ e))])) ∧
    (∀ v, jsonParse newSchema = Except.ok v →
        editStructuredOutput c newSchema reasoning =
          ({ c with structuredOutput := newSchema },
           Json.obj
             [("success", Json.bool true),
              ("message", Json.str "Structured output updated in memory successfully. User can publish when ready."),
              ("reasoning", Json.str reasoning)])) := by
  constructor <;> intro x h <;> simp [editStructuredOutput, h]

/-- Witness for C3 at the spec's two example inputs. -/
theorem edit_structured_output_spec_witness :
    editStructuredOutput demoComponent "\x7bnot json" "why" =
        (demoComponent,
         Json.obj
           [("success", Json.bool false),
            ("error", Json.str "Invalid JSON schema: Expected property name in JSON object")]) ∧
    editStructuredOutput demoComponent "\x7b\"type\":\"object\"\x7d" "why" =
        ({ demoComponent with structuredOutput := "\x7b\"type\":\"object\"\x7d" },
         Json.obj
           [("success", Json.bool true),
            ("message", Json.str "Structured output updated in memory successfully. User can publish when ready."),
            ("reasoning", Json.str "why")]) :=
  ⟨(edit_structured_output_spec demoComponent "\x7bnot json" "why").1
      "Expected property name in JSON object" rfl,
   (edit_structured_output_spec demoComponent "\x7b\"type\":\"object\"\x7d" "why").2
      (Json.obj [("type", Json.str "object")]) rfl⟩

/-- C7 counterexample: `maxChars = 0` is less than the 100-character
transcript's length, yet `maxChars || 5000` turns it into the 5000
default, so the result is untruncated with `returnedCharacters = 100`,
not `0`. -/
theorem transcript_maxchars_zero_counterexample :
    (transcriptResult tFetch100 (some 0)).returnedCharacters = 100 ∧
    (transcriptResult tFetch100 (some 0)).returnedCharacters ≠ 0 ∧
    (transcriptResult tFetch100 (some 0)).truncated = false ∧
    (0 : Nat) < tFetch100.fullTranscript.length := by decide

/-- C7 (amended): for a provided positive `maxChars` smaller than the
transcript length, the result is truncated, `returnedCharacters` equals
`maxChars`, and `percentageFetched` is
`Math.round((returnedCharacters / totalCharacters) * 100)` evaluated in
binary64 arithmetic as the engine does.  (The `maxChars = 0` case falls
to the 5000 default because of JavaScript `||`.) -/
theorem transcript_truncation_metadata (d : TranscriptFetch) (m : Nat)
    (h0 : 0 < m) (hlt : m < d.fullTranscript.length) :
    (transcriptResult d (some m)).truncated = true ∧
    (transcriptResult d (some m)).returnedCharacters = m ∧
    (transcriptResult d (some m)).percentageFetched =
      toString (jsRoundPct m d.fullTranscript.length) ++ "%" := by
  have hm0 : m ≠ 0 := Nat.pos_iff_ne_zero.mp h0
  have hlen : d.fullTranscript.length ≠ 0 :=
    Nat.pos_iff_ne_zero.mp (Nat.lt_trans h0 hlt)
  simp [transcriptResult, effLimit, hm0, hlen, hlt]

/-- Witness for C7 at the spec's worked example: `maxChars = 10` against
a 100-character transcript gives `truncated`, `returnedCharacters = 10`
and `percentageFetched = "10%"`. -/
theorem transcript_truncation_metadata_witness :
    ((0 < 10 ∧ 10 < tFetch100.fullTranscript.length) ∧
      (transcriptResult tFetch100 (some 10)).truncated = true ∧
      (transcriptResult tFetch100 (some 10)).returnedCharacters = 10) ∧
    (transcriptResult tFetch100 (some 10)).percentageFetched = "10%" := by
  have h := transcript_truncation_metadata tFetch100 10 (by decide) (by decide)
  refine ⟨⟨⟨by decide, by decide⟩, h.1, h.2.1⟩, ?_⟩
  rw [h.2.2]
  decide

/-- C10: whenever the transcript is longer than the effective character
limit, the returned `transcript` field is the limit-length slice with the
fixed truncation-notice suffix appended, so its length strictly exceeds
the limit even though `returnedCharacters` equals the limit. -/
theorem transcript_truncation_notice_appended (d : TranscriptFetch) (maxChars : Option Nat)
    (h : effLimit maxChars < d.fullTranscript.length) :
    (transcriptResult d maxChars).transcript =
        jsSlice d.fullTranscript (effLimit maxChars) ++ truncationNotice ∧
    (transcriptResult d maxChars).transcript.length =
        effLimit maxChars + truncationNotice.length ∧
    effLimit maxChars < (transcriptResult d maxChars).transcript.length ∧
    (transcriptResult d maxChars).returnedCharacters = effLimit maxChars := by
  have h1 : (transcriptResult d maxChars).transcript =
      jsSlice d.fullTranscript (effLimit maxChars) ++ truncationNotice := by
    simp [transcriptResult, h]
  have h2 : (jsSlice d.fullTranscript (effLimit maxChars)).length = effLimit maxChars := by
    rw [jsSlice, String.length_mk, List.length_take]
    exact Nat.min_eq_left (Nat.le_of_lt h)
  have h3 : (transcriptResult d maxChars).transcript.length =
      effLimit maxChars + truncationNotice.length := by
    rw [h1, String.length_append, h2]
  refine ⟨h1, h3, ?_, by simp [transcriptResult, h]⟩
  rw [h3]
  exact Nat.lt_add_of_pos_right (by decide)

/-- Witness for C10: `maxChars = 10` against the 100-character
transcript. -/
theorem transcript_truncation_notice_appended_witness :
    effLimit (some 10) < tFetch100.fullTranscript.length ∧
    ((transcriptResult tFetch100 (some 10)).transcript =
        jsSlice tFetch100.fullTranscript (effLimit (some 10)) ++ truncationNotice ∧
      (transcriptResult tFetch100 (some 10)).transcript.length =
        effLimit (some 10) + truncationNotice.length ∧
      effLimit (some 10) < (transcriptResult tFetch100 (some 10)).transcript.length ∧
      (transcriptResult tFetch100 (some 10)).returnedCharacters = effLimit (some 10)) :=
  ⟨by decide, transcript_truncation_notice_appended tFetch100 (some 10) (by decide)⟩

/-- The failure record the driver builds for an unparsable tool-call
argument text (source lines 1093-1096). -/
def parseFailureResult (e raw : String) : Json :=
  Json.obj
    [("error", Json.str ("Failed to parse arguments: " ++ e)),
     ("rawArguments", Json.str raw)]

/-- The loop state after recording a parse failure: the tool-role failure
message appended to history, two event ids consumed, component (and
everything else) untouched. -/
def parseFailureState (st : LoopState) (tc : PendingToolCall) (e : String) : LoopState :=
  { st with
    messages := st.messages ++
      [HistMsg.tool tc.id (Json.stringify (parseFailureResult e tc.argumentsText))]
    msgCounter := st.msgCounter + 2 }

/-- C4: a tool call whose argument text fails to parse as JSON is handled
non-fatally: the driver emits its `tool_call` event (carrying the raw
argument text) and a `success:false` `tool_result` event carrying the
parse error and the raw text, appends the corresponding tool-role record
to the message history, and then processes the remaining tool calls of
the turn from a state whose component (draft) is unchanged. -/
theorem tool_parse_failure_isolated (fetched : Except String TranscriptFetch)
    (st : LoopState) (tc : PendingToolCall) (rest : List PendingToolCall) (e : String)
    (h : jsonParse (padArgs tc.argumentsText) = Except.error e) :
    processToolCalls fetched st (tc :: rest) =
      (Event.tool_call ("tool-" ++ toString st.msgCounter) tc.name
          (ToolCallArgs.raw tc.argumentsText) ::
        Event.tool_result ("result-" ++ toString (st.msgCounter + 1)) tc.name
          (parseFailureResult e tc.argumentsText) false ::
        (processToolCalls fetched (parseFailureState st tc e) rest).1,
       (processToolCalls fetched (parseFailureState st tc e) rest).2) ∧
    (parseFailureState st tc e).component = st.component ∧
    (parseFailureState st tc e).messages =
      st.messages ++
        [HistMsg.tool tc.id (Json.stringify (parseFailureResult e tc.argumentsText))] := by
  refine ⟨?_, rfl, rfl⟩
  simp only [processToolCalls, h, parseFailureResult, parseFailureState]

/-- Witness for C4: a single `edit_prompt` call with the argument text
`{not json`. -/
theorem tool_parse_failure_isolated_witness :
    jsonParse (padArgs "\x7bnot json") =
        Except.error "Expected property name in JSON object" ∧
    processToolCalls demoFetch
        { component := demoComponent, messages := [], msgCounter := 7 }
        [{ id := "id-1", name := "edit_prompt", argumentsText := "\x7bnot json" }] =
      ([Event.tool_call "tool-7" "edit_prompt" (ToolCallArgs.raw "\x7bnot json"),
        Event.tool_result "result-8" "edit_prompt"
          (parseFailureResult "Expected property name in JSON object" "\x7bnot json") false],
       parseFailureState
         { component := demoComponent, messages := [], msgCounter := 7 }
         { id := "id-1", name := "edit_prompt", argumentsText := "\x7bnot json" }
         "Expected property name in JSON object") := by
  refine ⟨rfl, ?_⟩
  have h := tool_parse_failure_isolated demoFetch
    { component := demoComponent, messages := [], msgCounter := 7 }
    { id := "id-1", name := "edit_prompt", argumentsText := "\x7bnot json" } []
    "Expected property name in JSON object" rfl
  rw [h.1]
  exact rfl

/-- Concatenation of the `name` pieces of a fragment list in order
(an absent piece contributes the empty string). -/
def namesCat (ds : List ToolCallDelta) : String :=
  concatAll (ds.map fun d => d.name.getD "")

/-- Concatenation of the `arguments` pieces of a fragment list in order. -/
def argsCat (ds : List ToolCallDelta) : String :=
  concatAll (ds.map fun d => d.argumentsText.getD "")

theorem getD_empty_of_not_truthy (o : Option String) (h : ¬ strTruthy o = true) :
    o.getD "" = "" := by
  cases o with
  | none => rfl
  | some s => simpa [strTruthy] using h

theorem deltaUpdate_name (cur : PendingToolCall) (d : ToolCallDelta) :
    (deltaUpdate cur d).name = cur.name ++ d.name.getD "" := by
  simp only [deltaUpdate]
  split
  · rfl
  · next h => rw [getD_empty_of_not_truthy _ h, String.append_empty]

theorem deltaUpdate_args (cur : PendingToolCall) (d : ToolCallDelta) :
    (deltaUpdate cur d).argumentsText = cur.argumentsText ++ d.argumentsText.getD "" := by
  simp only [deltaUpdate]
  split
  · rfl
  · next h => rw [getD_empty_of_not_truthy _ h, String.append_empty]

/-- Localization: after folding any fragment list, the accumulator entry
at index `i` depends only on the fragments tagged with index `i`, folded
in their arrival order. -/
theorem foldDeltas_find (i : Nat) (ds : List ToolCallDelta) :
    ∀ acc : ToolCallAcc,
      (ds.foldl applyToolCallDelta acc).find i =
        (ds.filter fun d => d.index == i).foldl applyDeltaAt (acc.find i) := by
  induction ds with
  | nil => intro acc; rfl
  | cons d ds ih =>
    intro acc
    simp only [List.foldl_cons, List.filter_cons]
    by_cases h : d.index = i
    · have hb : (d.index == i) = true := by simpa using h
      rw [hb, if_pos rfl, List.foldl_cons, ih]
      congr 1
      show (if i = d.index then some (deltaUpdate ((acc.find d.index).getD (initPending d)) d)
            else acc.find i) = applyDeltaAt (acc.find i) d
      rw [if_pos h.symm, h, applyDeltaAt]
    · have hb : (d.index == i) = false := by simpa using h
      rw [hb, if_neg Bool.false_ne_true, ih]
      congr 1
      show (if i = d.index then some (deltaUpdate ((acc.find d.index).getD (initPending d)) d)
            else acc.find i) = acc.find i
      rw [if_neg fun hh => h hh.symm]

/-- Accumulation over the fragments of one index: folding from an
initialized entry appends the concatenation of the remaining name and
argument pieces. -/
theorem foldDeltaAt_some (ds : List ToolCallDelta) :
    ∀ p : PendingToolCall, ∃ qid,
      ds.foldl applyDeltaAt (some p) =
        some { id := qid, name := p.name ++ namesCat ds,
               argumentsText := p.argumentsText ++ argsCat ds } := by
  induction ds with
  | nil =>
    intro p
    refine ⟨p.id, ?_⟩
    simp [namesCat, argsCat, concatAll, String.append_empty]
  | cons d ds ih =>
    intro p
    simp only [List.foldl_cons, applyDeltaAt, Option.getD_some]
    obtain ⟨qid, hq⟩ := ih (deltaUpdate p d)
    refine ⟨qid, ?_⟩
    rw [hq, deltaUpdate_name, deltaUpdate_args]
    have hn : namesCat (d :: ds) = d.name.getD "" ++ namesCat ds := by
      simp [namesCat, concatAll]
    have ha : argsCat (d :: ds) = d.argumentsText.getD "" ++ argsCat ds := by
      simp [argsCat, concatAll]
    rw [hn, ha, String.append_assoc, String.append_assoc]

/-- C6: folding any interleaved stream of tool-call delta fragments, the
accumulated entry at each index that received at least one fragment has
`name` and `arguments` equal to the concatenation, in arrival order, of
exactly that index's name and argument pieces (index isolation). -/
theorem tool_call_index_isolation (ds : List ToolCallDelta) (i : Nat)
    (h : (ds.filter fun d => d.index == i) ≠ []) :
    ((ds.foldl applyToolCallDelta ToolCallAcc.empty).find i).map PendingToolCall.name =
        some (namesCat (ds.filter fun d => d.index == i)) ∧
      ((ds.foldl applyToolCallDelta ToolCallAcc.empty).find i).map
          PendingToolCall.argumentsText =
        some (argsCat (ds.filter fun d => d.index == i)) := by
  obtain ⟨d, rest, hcons⟩ : ∃ d rest, (ds.filter fun x => x.index == i) = d :: rest := by
    cases hf : ds.filter fun x => x.index == i with
    | nil => exact absurd hf h
    | cons d r => exact ⟨d, r, rfl⟩
  have hempty : ToolCallAcc.empty.find i = none := rfl
  rw [foldDeltas_find, hempty, hcons]
  have hstep : applyDeltaAt none d = some (deltaUpdate (initPending d) d) := rfl
  rw [List.foldl_cons, hstep]
  obtain ⟨qid, hq⟩ := foldDeltaAt_some rest (deltaUpdate (initPending d) d)
  rw [hq]
  simp only [Option.map_some', Option.some.injEq]
  rw [deltaUpdate_name, deltaUpdate_args]
  constructor
  · show ("" ++ d.name.getD "") ++ namesCat rest = _
    rw [String.empty_append]
    simp [namesCat, concatAll]
  · show ("" ++ d.argumentsText.getD "") ++ argsCat rest = _
    rw [String.empty_append]
    simp [argsCat, concatAll]

/-- Fragments for two tool calls interleaved across indices 0 and 1. -/
def interleavedDeltas : List ToolCallDelta :=
  [{ index := 0, id := some "a", name := some "edit_", argumentsText := some "\x7b\"new" },
   { index := 1, id := some "b", name := some "read_", argumentsText := some "\x7b\x7d" },
   { index := 0, id := none, name := some "prompt", argumentsText := some "_prompt\":1\x7d" },
   { index := 1, id := none, name := some "current_component", argumentsText := none }]

/-- Witness for C6: two interleaved indices each reassemble their own
name and argument text. -/
theorem tool_call_index_isolation_witness :
    ((interleavedDeltas.filter fun d => d.index == 0) ≠ [] ∧
      (interleavedDeltas.filter fun d => d.index == 1) ≠ []) ∧
    ((interleavedDeltas.foldl applyToolCallDelta ToolCallAcc.empty).find 0).map
        PendingToolCall.name = some "edit_prompt" ∧
    ((interleavedDeltas.foldl applyToolCallDelta ToolCallAcc.empty).find 0).map
        PendingToolCall.argumentsText = some "\x7b\"new_prompt\":1\x7d" ∧
    ((interleavedDeltas.foldl applyToolCallDelta ToolCallAcc.empty).find 1).map
        PendingToolCall.name = some "read_current_component" := by
  have h0 := tool_call_index_isolation interleavedDeltas 0 (by decide)
  have h1 := tool_call_index_isolation interleavedDeltas 1 (by decide)
  refine ⟨⟨by decide, by decide⟩, ?_, ?_, ?_⟩
  · rw [h0.1]; rfl
  · rw [h0.2]; rfl
  · rw [h1.1]; rfl

/-- Running invariant for a chunk fold: if the round's message list ends
with a message whose id is the chunk id and whose content equals the
running text, then after folding any delta list the final text and that
last message's content both equal the old text extended by the
concatenation of the deltas, and the message stays last. -/
theorem foldChunks_running (roundId : String) (now : Nat) (mid : String)
    (deltas : List String) :
    ∀ (t : String) (r : ConversationRound) (pre : List AgentMessage) (m : AgentMessage),
      r.id = roundId → r.messages = pre ++ [m] → m.id = mid → m.content = t →
      (foldChunks roundId now mid (t, r) deltas).1 = t ++ concatAll deltas ∧
      (foldChunks roundId now mid (t, r) deltas).2.id = roundId ∧
      ∃ pre', (foldChunks roundId now mid (t, r) deltas).2.messages =
        pre' ++ [{ m with content := t ++ concatAll deltas }] := by
  induction deltas with
  | nil =>
    intro t r pre m hid hmsg hmid hcont
    have hm : ({ m with content := t ++ concatAll [] } : AgentMessage) = m := by
      rw [show concatAll [] = "" from rfl, String.append_empty, ← hcont]
    refine ⟨(String.append_empty t).symm, hid, pre, ?_⟩
    rw [hm]
    exact hmsg
  | cons dlt ds ih =>
    intro t r pre m hid hmsg hmid hcont
    have hstep : applyClientEvent roundId now (t, r) (Event.message_chunk mid dlt) =
        (t ++ dlt,
         { r with messages := (pre ++ [m]).map fun x =>
             if x.id = mid then { x with content := t ++ dlt } else x }) := by
      simp [applyClientEvent, hid, hmsg]
    have hunf : foldChunks roundId now mid (t, r) (dlt :: ds) =
        foldChunks roundId now mid
          (t ++ dlt,
           { r with messages := (pre ++ [m]).map fun x =>
               if x.id = mid then { x with content := t ++ dlt } else x }) ds := by
      rw [foldChunks, foldChunks, List.foldl_cons, hstep]
    have hmap : ((pre ++ [m]).map fun x =>
        if x.id = mid then { x with content := t ++ dlt } else x) =
        (pre.map fun x => if x.id = mid then { x with content := t ++ dlt } else x) ++
          [{ m with content := t ++ dlt }] := by
      rw [List.map_append, List.map_singleton, if_pos hmid]
    obtain ⟨h1, h2, pre', h3⟩ := ih (t ++ dlt)
      { r with messages := (pre ++ [m]).map fun x =>
          if x.id = mid then { x with content := t ++ dlt } else x }
      (pre.map fun x => if x.id = mid then { x with content := t ++ dlt } else x)
      { m with content := t ++ dlt } hid hmap hmid rfl
    have hnest : ({ { m with content := t ++ dlt } with
        content := (t ++ dlt) ++ concatAll ds } : AgentMessage) =
        { m with content := t ++ (dlt ++ concatAll ds) } := by
      rw [String.append_assoc]
    refine ⟨?_, ?_, pre', ?_⟩
    · rw [hunf, h1, show concatAll (dlt :: ds) = dlt ++ concatAll ds from rfl,
        String.append_assoc]
    · rw [hunf]
      exact h2
    · rw [hunf, h3, hnest]
      rfl

/-- C5: starting from a `message_start` for a fresh `messageId`, folding
the `message_chunk` events for that id in arrival order leaves the round
ending in a message whose content is exactly the concatenation of the
deltas in that order, and the running text equals the same
concatenation; the fold is a pure function of the delta sequence, so
replaying the same sequence reproduces the same final content. -/
theorem message_chunk_replay_concat (roundId : String) (now : Nat) (t0 : String)
    (r : ConversationRound) (mid : String) (deltas : List String) (h : r.id = roundId) :
    (foldChunks roundId now mid
        (applyClientEvent roundId now (t0, r) (Event.message_start mid)) deltas).1 =
      concatAll deltas ∧
    (foldChunks roundId now mid
        (applyClientEvent roundId now (t0, r) (Event.message_start mid))
        deltas).2.messages.getLast? =
      some { id := mid, type := "assistant", content := concatAll deltas,
             timestamp := now, metadata := none } := by
  have hstart : applyClientEvent roundId now (t0, r) (Event.message_start mid) =
      ("", { r with messages := r.messages ++
        [{ id := mid, type := "assistant", content := "", timestamp := now,
           metadata := none }] }) := by
    simp [applyClientEvent, h]
  rw [hstart]
  obtain ⟨h1, _h2, pre', h3⟩ := foldChunks_running roundId now mid deltas ""
    { r with messages := r.messages ++
      [{ id := mid, type := "assistant", content := "", timestamp := now,
         metadata := none }] }
    r.messages
    { id := mid, type := "assistant", content := "", timestamp := now, metadata := none }
    h rfl rfl rfl
  constructor
  · rw [h1, String.empty_append]
  · rw [h3, List.getLast?_concat, String.empty_append]

/-- An empty active round, as created when the user submits a prompt. -/
def demoRound : ConversationRound :=
  { id := "round-1", userPrompt := "make the summary shorter"
    editModes := { editPrompt := true, editData := false, editUICode := false }
    messages := [], timestamp := 5 }

/-- Witness for C5: three chunks reassemble to their concatenation. -/
theorem message_chunk_replay_concat_witness :
    demoRound.id = "round-1" ∧
    ((foldChunks "round-1" 9 "msg-0"
        (applyClientEvent "round-1" 9 ("", demoRound) (Event.message_start "msg-0"))
        ["Hel", "lo ", "world"]).1 = concatAll ["Hel", "lo ", "world"] ∧
      (foldChunks "round-1" 9 "msg-0"
          (applyClientEvent "round-1" 9 ("", demoRound) (Event.message_start "msg-0"))
          ["Hel", "lo ", "world"]).2.messages.getLast? =
        some { id := "msg-0", type := "assistant",
               content := concatAll ["Hel", "lo ", "world"], timestamp := 9,
               metadata := none }) :=
  ⟨rfl, message_chunk_replay_concat "round-1" 9 "" demoRound "msg-0"
    ["Hel", "lo ", "world"] rfl⟩

/-- A `message_chunk` content update on a list with pairwise-distinct
ids either changes nothing or rewrites the content of exactly one
position, leaving every id, type, timestamp and metadata in place. -/
theorem map_content_update (mid t : String) :
    ∀ l : List AgentMessage, (l.map fun m => m.id).Nodup →
      ((l.map fun m => if m.id = mid then { m with content := t } else m) = l ∨
        ∃ k, ∃ hk : k < l.length, ∃ cnew : String,
          (l.map fun m => if m.id = mid then { m with content := t } else m) =
            l.set k { l.get ⟨k, hk⟩ with content := cnew }) := by
  intro l
  induction l with
  | nil => intro _; exact Or.inl rfl
  | cons m rest ih =>
    intro hnd
    rw [List.map_cons, List.nodup_cons] at hnd
    rw [List.map_cons]
    by_cases hm : m.id = mid
    · have hrest : (rest.map fun x => if x.id = mid then { x with content := t } else x)
          = rest := by
        have hall : ∀ x ∈ rest,
            (if x.id = mid then { x with content := t } else x) = x := by
          intro x hx
          rw [if_neg]
          intro hxe
          exact hnd.1 (List.mem_map.mpr ⟨x, hx, by rw [hxe, hm]⟩)
        calc (rest.map fun x => if x.id = mid then { x with content := t } else x)
            = rest.map id := List.map_congr_left hall
          _ = rest := List.map_id rest
      refine Or.inr ⟨0, Nat.succ_pos _, t, ?_⟩
      rw [if_pos hm, hrest]
      rfl
    · rw [if_neg hm]
      rcases ih hnd.2 with h | ⟨k, hk, c, heq⟩
      · exact Or.inl (by rw [h])
      · refine Or.inr ⟨k + 1, Nat.succ_lt_succ hk, c, ?_⟩
        rw [heq]
        rfl

/-- C8: folding any wire event into the active round either leaves the
message list unchanged, appends exactly one message, or rewrites the
content of exactly one existing message in place (ids distinct within
the round, per the data model); in particular no event removes or
reorders messages and the list never shrinks. -/
theorem round_fold_append_only (roundId : String) (now : Nat)
    (st : String × ConversationRound) (e : Event)
    (hids : (st.2.messages.map fun m => m.id).Nodup) :
    ((applyClientEvent roundId now st e).2.messages = st.2.messages ∨
      (∃ m, (applyClientEvent roundId now st e).2.messages = st.2.messages ++ [m]) ∨
      ∃ k, ∃ hk : k < st.2.messages.length, ∃ cnew : String,
        (applyClientEvent roundId now st e).2.messages =
          st.2.messages.set k { st.2.messages.get ⟨k, hk⟩ with content := cnew }) ∧
    st.2.messages.length ≤ (applyClientEvent roundId now st e).2.messages.length := by
  obtain ⟨t, r⟩ := st
  by_cases hg : r.id = roundId
  · cases e with
    | message_start mid =>
      refine ⟨Or.inr (Or.inl
        ⟨{ id := mid, type := "assistant", content := "", timestamp := now,
           metadata := none }, ?_⟩), ?_⟩ <;> simp [applyClientEvent, hg]
    | message_chunk mid dlt =>
      have hmsgs : (applyClientEvent roundId now (t, r) (Event.message_chunk mid dlt)).2.messages
          = r.messages.map fun m => if m.id = mid then { m with content := t ++ dlt } else m := by
        simp [applyClientEvent, hg]
      constructor
      · rcases map_content_update mid (t ++ dlt) r.messages hids with h | ⟨k, hk, c, heq⟩
        · exact Or.inl (by rw [hmsgs, h])
        · exact Or.inr (Or.inr ⟨k, hk, c, by rw [hmsgs, heq]⟩)
      · rw [hmsgs, List.length_map]
    | message_complete mid content => exact ⟨Or.inl rfl, Nat.le_refl _⟩
    | tool_call eid toolName args =>
      refine ⟨Or.inr (Or.inl
        ⟨{ id := eid, type := "tool_call", content := toolName, timestamp := now,
           metadata := some (.toolCallMeta toolName args) }, ?_⟩), ?_⟩ <;>
        simp [applyClientEvent, hg]
    | tool_result eid toolName result success =>
      refine ⟨Or.inr (Or.inl
        ⟨{ id := eid, type := "tool_result", content := Json.stringify2 0 result,
           timestamp := now,
           metadata := some (.toolResultMeta toolName result) }, ?_⟩), ?_⟩ <;>
        simp [applyClientEvent, hg]
    | agent_complete success updatedState => exact ⟨Or.inl rfl, Nat.le_refl _⟩
    | error msg =>
      refine ⟨Or.inr (Or.inl
        ⟨{ id := "error-" ++ toString now, type := "error", content := msg,
           timestamp := now, metadata := none }, ?_⟩), ?_⟩ <;>
        simp [applyClientEvent, hg]
  · have hunch : (applyClientEvent roundId now (t, r) e).2 = r := by
      cases e <;> simp [applyClientEvent, hg]
    rw [hunch]
    exact ⟨Or.inl rfl, Nat.le_refl _⟩

/-- A round already holding two messages with distinct ids. -/
def demoChatRound : ConversationRound :=
  { id := "round-1", userPrompt := "make the summary shorter"
    editModes := { editPrompt := true, editData := false, editUICode := false }
    messages :=
      [{ id := "m1", type := "assistant", content := "Hi", timestamp := 1, metadata := none },
       { id := "m2", type := "assistant", content := "Yo", timestamp := 2, metadata := none }]
    timestamp := 5 }

/-- The fold state for the C8 witness. -/
def demoSt : String × ConversationRound := ("", demoChatRound)

/-- Witness for C8: a chunk event against a two-message round. -/
theorem round_fold_append_only_witness :
    (demoSt.2.messages.map fun m => m.id).Nodup ∧
    (((applyClientEvent "round-1" 3 demoSt (Event.message_chunk "m1" "!")).2.messages =
        demoSt.2.messages ∨
      (∃ m, (applyClientEvent "round-1" 3 demoSt
          (Event.message_chunk "m1" "!")).2.messages = demoSt.2.messages ++ [m]) ∨
      ∃ k, ∃ hk : k < demoSt.2.messages.length, ∃ cnew : String,
        (applyClientEvent "round-1" 3 demoSt (Event.message_chunk "m1" "!")).2.messages =
          demoSt.2.messages.set k
            { demoSt.2.messages.get ⟨k, hk⟩ with content := cnew })) ∧
    demoSt.2.messages.length ≤
      (applyClientEvent "round-1" 3 demoSt (Event.message_chunk "m1" "!")).2.messages.length :=
  ⟨by decide, round_fold_append_only "round-1" 3 demoSt
    (Event.message_chunk "m1" "!") (by decide)⟩

/-- A chunk step only ever adds `message_chunk` events. -/
theorem processChunk_events (msgId : String) (st : String × ToolCallAcc × List Event)
    (ch : StreamChunk) :
    ∀ e ∈ (processChunk msgId st ch).2.2,
      e ∈ st.2.2 ∨ ∃ m d, e = Event.message_chunk m d := by
  intro e he
  rcases ch with ⟨c, tcs⟩
  rcases c with _ | s
  · exact Or.inl he
  · by_cases hs : s = ""
    · simp only [processChunk, if_pos hs] at he
      exact Or.inl he
    · simp only [processChunk, if_neg hs] at he
      rcases List.mem_append.mp he with h | h
      · exact Or.inl h
      · exact Or.inr ⟨msgId, s, List.mem_singleton.mp h⟩

/-- Every event produced while consuming a model stream is a
`message_chunk`. -/
theorem processStream_events (msgId : String) (chunks : List StreamChunk) :
    ∀ st : String × ToolCallAcc × List Event,
      ∀ e ∈ (chunks.foldl (processChunk msgId) st).2.2,
        e ∈ st.2.2 ∨ ∃ m d, e = Event.message_chunk m d := by
  induction chunks with
  | nil => intro st e he; exact Or.inl he
  | cons ch chunks ih =>
    intro st e he
    rw [List.foldl_cons] at he
    rcases ih (processChunk msgId st ch) e he with h | h
    · exact processChunk_events msgId st ch e h
    · exact Or.inr h

/-- Tool-call execution only emits `tool_call` and `tool_result` events,
never a terminal one. -/
theorem processToolCalls_no_terminal (fetched : Except String TranscriptFetch)
    (tcs : List PendingToolCall) :
    ∀ st : LoopState, ∀ e ∈ (processToolCalls fetched st tcs).1,
      e.isTerminal = false := by
  induction tcs with
  | nil => intro st e he; simp [processToolCalls] at he
  | cons tc rest ih =>
    intro st e he
    rw [processToolCalls] at he
    split at he
    · rcases List.mem_cons.mp he with h | h
      · rw [h]; rfl
      · rcases List.mem_cons.mp h with h' | h'
        · rw [h']; rfl
        · exact ih _ e h'
    · split at he
      · rcases List.mem_cons.mp he with h | h
        · rw [h]; rfl
        · rcases List.mem_cons.mp h with h' | h'
          · rw [h']; rfl
          · exact ih _ e h'
      · rcases List.mem_cons.mp he with h | h
        · rw [h]; rfl
        · rcases List.mem_cons.mp h with h' | h'
          · rw [h']; rfl
          · exact ih _ e h'

/-- One loop iteration never emits a terminal event. -/
theorem runIteration_no_terminal (fetched : Except String TranscriptFetch)
    (st : LoopState) (chunks : List StreamChunk) :
    ∀ e ∈ (runIteration fetched st chunks).1, e.isTerminal = false := by
  intro e he
  simp only [runIteration] at he
  have hstream : ∀ x ∈ (processStream ("msg-" ++ toString st.msgCounter) chunks).2.2,
      Event.isTerminal x = false := by
    intro x hx
    rcases processStream_events _ chunks _ x hx with h | ⟨m, d, hmd⟩
    · simp at h
    · rw [hmd]; rfl
  split at he
  · rcases List.mem_cons.mp he with h | h
    · rw [h]; rfl
    · rcases List.mem_append.mp h with h' | h'
      · exact hstream e h'
      · rw [List.mem_singleton.mp h']; rfl
  · rcases List.mem_append.mp he with h | h
    · rcases List.mem_cons.mp h with h' | h'
      · rw [h']; rfl
      · rcases List.mem_append.mp h' with h'' | h''
        · exact hstream e h''
        · rw [List.mem_singleton.mp h'']; rfl
    · exact processToolCalls_no_terminal fetched _ _ e h

/-- The bounded loop never emits a terminal event. -/
theorem agentLoopGo_no_terminal (fetched : Except String TranscriptFetch)
    (turns : Nat → List StreamChunk) (remaining : Nat) :
    ∀ (iter : Nat) (st : LoopState),
      ∀ e ∈ (agentLoopGo fetched turns remaining iter st).1, e.isTerminal = false := by
  induction remaining with
  | zero => intro iter st e he; simp [agentLoopGo] at he
  | succ n ih =>
    intro iter st e he
    simp only [agentLoopGo] at he
    split at he
    · rcases List.mem_append.mp he with h | h
      · exact runIteration_no_terminal fetched st (turns (iter + 1)) e h
      · exact ih _ _ e h
    · exact runIteration_no_terminal fetched st (turns (iter + 1)) e he

/-- C1 (amended): every run of the non-fatal driver body emits exactly
one `agent_complete`, as its very last event, carrying the final draft;
all earlier events are non-terminal except that, when the iteration
count reaches the cap, a single max-iterations `error` event immediately
precedes the final `agent_complete`.  (Contrary to the original claim,
the `error` warning at the cap is followed by an `agent_complete`
carrying the last-known draft.) -/
theorem run_terminal_events (fetched : Except String TranscriptFetch)
    (turns : Nat → List StreamChunk) (sys usr : String) (comp : Component) :
    ∃ pre : List Event, ∃ hit : Bool,
      (runAgent fetched turns sys usr comp).events =
        pre ++ (if hit then [Event.error maxIterationsMessage] else []) ++
          [Event.agent_complete true (runAgent fetched turns sys usr comp).updatedState] ∧
      ∀ e ∈ pre, e.isTerminal = false := by
  by_cases hcap : maxIterations ≤
      (agentLoopGo fetched turns maxIterations 0
        { component := comp
          messages := [HistMsg.system sys, HistMsg.user usr]
          msgCounter := 0 }).2.1
  · refine ⟨(agentLoopGo fetched turns maxIterations 0
        { component := comp
          messages := [HistMsg.system sys, HistMsg.user usr]
          msgCounter := 0 }).1, true, ?_,
      fun e he => agentLoopGo_no_terminal fetched turns maxIterations 0 _ e he⟩
    simp [runAgent, hcap]
  · refine ⟨(agentLoopGo fetched turns maxIterations 0
        { component := comp
          messages := [HistMsg.system sys, HistMsg.user usr]
          msgCounter := 0 }).1, false, ?_,
      fun e he => agentLoopGo_no_terminal fetched turns maxIterations 0 _ e he⟩
    simp [runAgent, hcap]

/-- A model collaborator that requests one `read_current_component` tool
call on every iteration. -/
def alwaysToolTurns : Nat → List StreamChunk := fun _ =>
  [{ content := none
     toolCalls := [{ index := 0, id := some "call-1",
                     name := some "read_current_component",
                     argumentsText := some "\x7b\x7d" }] }]

def cappedRun : RunOutput := runAgent demoFetch alwaysToolTurns "sys" "usr" demoComponent

/-- C1 counterexample: a run whose model requests a tool call on every
iteration hits the cap and emits the max-iterations `error` event at
position 100 followed by an `agent_complete` at position 101 — so the
`error` is not the last event and an `agent_complete` is emitted at the
cap, contradicting the claim as stated. -/
theorem run_terminal_events_counterexample :
    cappedRun.events.get? 100 = some (Event.error maxIterationsMessage) ∧
    cappedRun.events.get? 101 =
      some (Event.agent_complete true cappedRun.updatedState) ∧
    cappedRun.events.length = 102 :=
  ⟨rfl, rfl, rfl⟩

/-- Whether a streamed turn accumulates at least one tool call
(independent of the driver state consuming it). -/
def hasToolCalls (chunks : List StreamChunk) : Bool :=
  !((processStream "" chunks).2.1.compact.isEmpty)

/-- The accumulator component of a chunk step does not depend on the
message id or on the text/event components of the state. -/
theorem processChunk_acc (msgId : String) (st : String × ToolCallAcc × List Event)
    (ch : StreamChunk) :
    (processChunk msgId st ch).2.1 = ch.toolCalls.foldl applyToolCallDelta st.2.1 := by
  rcases ch with ⟨c, tcs⟩
  rcases c with _ | s
  · rfl
  · by_cases hs : s = "" <;> simp [processChunk, hs]

/-- The accumulator produced by a stream depends only on the chunks. -/
theorem processStream_acc_irrel (chunks : List StreamChunk) :
    ∀ (m1 m2 : String) (st1 st2 : String × ToolCallAcc × List Event),
      st1.2.1 = st2.2.1 →
      (chunks.foldl (processChunk m1) st1).2.1 =
        (chunks.foldl (processChunk m2) st2).2.1 := by
  induction chunks with
  | nil => intro m1 m2 st1 st2 h; exact h
  | cons ch chunks ih =>
    intro m1 m2 st1 st2 h
    rw [List.foldl_cons, List.foldl_cons]
    exact ih m1 m2 _ _ (by rw [processChunk_acc, processChunk_acc, h])

/-- The continue/break decision of one iteration equals `hasToolCalls` of
its streamed turn. -/
theorem runIteration_hasTools (fetched : Except String TranscriptFetch)
    (st : LoopState) (chunks : List StreamChunk) :
    (runIteration fetched st chunks).2.2 = hasToolCalls chunks := by
  have hacc : (processStream ("msg-" ++ toString st.msgCounter) chunks).2.1 =
      (processStream "" chunks).2.1 :=
    processStream_acc_irrel chunks _ "" _ _ rfl
  simp only [runIteration, hasToolCalls, hacc]
  split
  · next h => rw [h]; rfl
  · next h => rw [Bool.eq_false_iff.mpr h]; rfl

/-- If every iteration before `iter + remaining` requests tools and the
turn at `iter + remaining` does not, the loop exits with `iteration`
equal to `iter + remaining`. -/
theorem agentLoopGo_exact (fetched : Except String TranscriptFetch)
    (turns : Nat → List StreamChunk) :
    ∀ (remaining iter : Nat) (st : LoopState),
      0 < remaining →
      (∀ j, iter < j → j < iter + remaining → hasToolCalls (turns j) = true) →
      hasToolCalls (turns (iter + remaining)) = false →
      (agentLoopGo fetched turns remaining iter st).2.1 = iter + remaining := by
  intro remaining
  induction remaining with
  | zero => intro iter st h; omega
  | succ r ih =>
    intro iter st _ hall hlast
    have hht : (runIteration fetched st (turns (iter + 1))).2.2 =
        hasToolCalls (turns (iter + 1)) :=
      runIteration_hasTools fetched st (turns (iter + 1))
    rcases Nat.eq_zero_or_pos r with hr | hr
    · subst hr
      have hfalse : (runIteration fetched st (turns (iter + 1))).2.2 = false := by
        rw [hht]; exact hlast
      simp only [agentLoopGo]
      split
      · next h => simp [hfalse] at h
      · next h =>
        show iter + 1 = iter + (0 + 1)
        omega
    · have htrue : (runIteration fetched st (turns (iter + 1))).2.2 = true := by
        rw [hht]
        exact hall (iter + 1) (by omega) (by omega)
      simp only [agentLoopGo]
      split
      · next h =>
        have hrec := ih (iter + 1) (runIteration fetched st (turns (iter + 1))).2.1 hr
          (fun j hj1 hj2 => hall j (by omega) (by omega))
          (by have hh : iter + 1 + r = iter + (r + 1) := by omega
              rw [hh]; exact hlast)
        show (agentLoopGo fetched turns r (iter + 1)
            (runIteration fetched st (turns (iter + 1))).2.1).2.1 = iter + (r + 1)
        rw [hrec]
        omega
      · next h => exact absurd htrue h

/-- C9: for every run whose model requests tools on iterations 1-24 and
produces its first tool-call-free turn on exactly the 25th (final
allowed) iteration — normal completion by `break` at the cap — the
driver still emits the max-iterations `error` event immediately before
the `agent_complete`, because the post-loop check tests
`iteration >= maxIterations` regardless of how the loop exited. -/
theorem max_iter_warning_on_final_iteration_completion
    (fetched : Except String TranscriptFetch) (turns : Nat → List StreamChunk)
    (sys usr : String) (comp : Component)
    (h24 : ∀ i, 1 ≤ i → i ≤ 24 → hasToolCalls (turns i) = true)
    (h25 : hasToolCalls (turns 25) = false) :
    ∃ pre : List Event,
      (runAgent fetched turns sys usr comp).events =
        pre ++ [Event.error maxIterationsMessage,
          Event.agent_complete true (runAgent fetched turns sys usr comp).updatedState] ∧
      ∀ e ∈ pre, e.isTerminal = false := by
  have hmax : maxIterations = 25 := rfl
  have hfin : (agentLoopGo fetched turns maxIterations 0
      { component := comp
        messages := [HistMsg.system sys, HistMsg.user usr]
        msgCounter := 0 }).2.1 = 25 := by
    rw [hmax]
    have h0 : (0 : Nat) + 25 = 25 := rfl
    exact (agentLoopGo_exact fetched turns 25 0
      { component := comp
        messages := [HistMsg.system sys, HistMsg.user usr]
        msgCounter := 0 }
      (by omega)
      (fun j h1 h2 => h24 j (by omega) (by omega))
      (by rw [h0]; exact h25)).trans h0
  have hwarn : (if maxIterations ≤ (agentLoopGo fetched turns maxIterations 0
      { component := comp
        messages := [HistMsg.system sys, HistMsg.user usr]
        msgCounter := 0 }).2.1 then [Event.error maxIterationsMessage] else []) =
      [Event.error maxIterationsMessage] := by
    rw [hfin, hmax]
    simp
  refine ⟨(agentLoopGo fetched turns maxIterations 0
      { component := comp
        messages := [HistMsg.system sys, HistMsg.user usr]
        msgCounter := 0 }).1, ?_,
    fun e he => agentLoopGo_no_terminal fetched turns maxIterations 0 _ e he⟩
  simp only [runAgent, hwarn]
  simp

/-- A model collaborator that requests a tool call on iterations 1-24 and
returns a plain text turn (no tool calls) on iteration 25. -/
def toolThen24TextTurns : Nat → List StreamChunk := fun i =>
  if i ≤ 24 then
    [{ content := none
       toolCalls := [{ index := 0, id := some "call-1",
                       name := some "read_current_component",
                       argumentsText := some "\x7b\x7d" }] }]
  else [{ content := some "done", toolCalls := [] }]

def cap25Run : RunOutput := runAgent demoFetch toolThen24TextTurns "sys" "usr" demoComponent

/-- Witness for C9: the concrete 24-tool-turns-then-text run; the
`error` lands at position 99 and `agent_complete` at position 100 of the
101-event stream. -/
theorem max_iter_warning_on_final_iteration_completion_witness :
    ((∀ i, 1 ≤ i → i ≤ 24 → hasToolCalls (toolThen24TextTurns i) = true) ∧
      hasToolCalls (toolThen24TextTurns 25) = false) ∧
    (∃ pre : List Event,
      cap25Run.events =
        pre ++ [Event.error maxIterationsMessage,
          Event.agent_complete true cap25Run.updatedState] ∧
      ∀ e ∈ pre, e.isTerminal = false) ∧
    cap25Run.events.get? 99 = some (Event.error maxIterationsMessage) ∧
    cap25Run.events.get? 100 =
      some (Event.agent_complete true cap25Run.updatedState) ∧
    cap25Run.events.length = 101 := by
  have h24 : ∀ i, 1 ≤ i → i ≤ 24 → hasToolCalls (toolThen24TextTurns i) = true := by
    intro i _ h2
    simp only [toolThen24TextTurns, if_pos h2]
    rfl
  have h25 : hasToolCalls (toolThen24TextTurns 25) = false := rfl
  refine ⟨⟨h24, h25⟩, ?_, rfl, rfl, rfl⟩
  exact max_iter_warning_on_final_iteration_completion demoFetch toolThen24TextTurns
    "sys" "usr" demoComponent h24 h25

end ConvoIQ
